import Mathlib

/-!
Verification of the Messenger-Analysis chat-processing pipeline.

Shallow embedding of the Python sources `chat_processing/chat_features.py`,
`chat_processing/single_folder.py` and `chat_processing/all_folders.py`.
Text is modelled as `List Char` (Python unicode strings), raw byte strings as
`List Nat`, pandas missing values (NaN) as `Option`, and operations that can
raise Python exceptions as `Except String`.
-/

/-- Model of Python `str.encode("latin1")`: each code point below 256 maps to
the byte of the same value; any code point of 256 or above raises
`UnicodeEncodeError` (modelled as `none`). -/
def latin1Encode : List Char → Option (List Nat)
  | [] => some []
  | c :: cs =>
    if c.toNat < 256 then (latin1Encode cs).map (fun bs => c.toNat :: bs)
    else none

/-- Whether a byte is a UTF-8 continuation byte (0x80 to 0xBF). -/
def isCont (b : Nat) : Bool := 128 ≤ b && b < 192

/-- Model of Python `bytes.decode("utf8")`: strict UTF-8 decoding that rejects
continuation bytes in lead position, overlong encodings, surrogate code points
and code points above 0x10FFFF, exactly as CPython does (`UnicodeDecodeError`
is modelled as `none`). -/
def utf8Decode : List Nat → Option (List Char)
  | [] => some []
  | b :: bs =>
    if b < 128 then
      (utf8Decode bs).map (fun cs => Char.ofNat b :: cs)
    else if b < 194 then
      -- 0x80..0xC1: stray continuation byte or overlong two-byte lead
      none
    else if b < 224 then
      -- two-byte sequence, lead 0xC2..0xDF
      match bs with
      | b1 :: bs1 =>
        if isCont b1 then
          (utf8Decode bs1).map (fun cs => Char.ofNat ((b - 192) * 64 + (b1 - 128)) :: cs)
        else none
      | [] => none
    else if b < 240 then
      -- three-byte sequence, lead 0xE0..0xEF
      match bs with
      | b1 :: b2 :: bs2 =>
        if (if b = 224 then 160 ≤ b1 && b1 < 192
            else if b = 237 then 128 ≤ b1 && b1 < 160
            else isCont b1) && isCont b2 then
          (utf8Decode bs2).map
            (fun cs => Char.ofNat ((b - 224) * 4096 + (b1 - 128) * 64 + (b2 - 128)) :: cs)
        else none
      | _ => none
    else if b < 245 then
      -- four-byte sequence, lead 0xF0..0xF4
      match bs with
      | b1 :: b2 :: b3 :: bs3 =>
        if (if b = 240 then 144 ≤ b1 && b1 < 192
            else if b = 244 then 128 ≤ b1 && b1 < 144
            else isCont b1) && isCont b2 && isCont b3 then
          (utf8Decode bs3).map
            (fun cs =>
              Char.ofNat ((b - 240) * 262144 + (b1 - 128) * 4096 + (b2 - 128) * 64 + (b3 - 128)) :: cs)
        else none
      | _ => none
    else none

/-- Model of `chat_features.unicode_emoji_converter`: re-encode the text as
latin1 and re-decode it as UTF-8.  The Python function has no exception
handler, so a failure of either step is a raised exception (`none` here). -/
def unicode_emoji_converter (s : List Char) : Option (List Char) :=
  (latin1Encode s).bind utf8Decode

/-- Python `\s` / `str.split()` whitespace: space, tab, newline, carriage
return, vertical tab and form feed (restricted to the ASCII fragment). -/
def isPyWhitespace (c : Char) : Bool :=
  c = ' ' || c = Char.ofNat 9 || c = Char.ofNat 10 || c = Char.ofNat 13 ||
  c = Char.ofNat 11 || c = Char.ofNat 12

/-- Model of the character class kept by `prep_text`'s regex
`[^\w\d\s\x27]+` removal: word characters (modelled on the ASCII fragment of
Python re's `\w`: letters, digits, underscore; every character appearing in
the claims' inputs is classified identically by Python), whitespace and the
apostrophe survive. -/
def keptByPrepText (c : Char) : Bool :=
  c.isAlphanum || c = '_' || isPyWhitespace c || c = Char.ofNat 39

/-- Helper for `pySplit`: accumulates the current token (reversed). -/
def pySplitAux : List Char → List Char → List (List Char)
  | [], acc => if acc.isEmpty then [] else [acc.reverse]
  | c :: cs, acc =>
    if isPyWhitespace c then
      if acc.isEmpty then pySplitAux cs [] else acc.reverse :: pySplitAux cs []
    else pySplitAux cs (c :: acc)

/-- Model of Python `str.split()` with no arguments: split on runs of
whitespace, discarding empty tokens. -/
def pySplit (s : List Char) : List (List Char) :=
  pySplitAux s []

/-- Model of `chat_features.prep_text` with `cap=False`: remove every
character outside `[\w\d\s\x27]` and split on whitespace. -/
def prep_text_nocap (s : List Char) : List (List Char) :=
  pySplit (s.filter keptByPrepText)

/-- Model of `chat_features.word_count`: the number of tokens left by
`prep_text(s, cap=False)`. -/
def word_count (s : List Char) : Nat :=
  (prep_text_nocap s).length

/-- Model of `Series.str.contains("http")`: the pattern has no regex
metacharacters, so it is a plain substring test. -/
def containsHttp : List Char → Bool
  | [] => false
  | c :: cs => (String.toList "http").isPrefixOf (c :: cs) || containsHttp cs

/-- Descending-length order used by `sorted(key=len, reverse=True)`. -/
def lenGe (a b : List Char) : Prop := b.length ≤ a.length

instance : DecidableRel lenGe := fun a b =>
  inferInstanceAs (Decidable (b.length ≤ a.length))

instance : IsTotal (List Char) lenGe :=
  ⟨fun a b => Nat.le_total b.length a.length⟩

instance : IsTrans (List Char) lenGe :=
  ⟨fun _ _ _ hab hbc => Nat.le_trans hbc hab⟩

/-- Candidate order of `chat_features.get_emoji_regexp`: the emoji list
sorted by length, longest first (`sorted(emoji.EMOJI_DATA, key=len,
reverse=True)`, a stable sort).  The compiled regex is the ordered
alternation of these candidates, so this list determines its matching
behaviour. -/
def get_emoji_regexp (cands : List (List Char)) : List (List Char) :=
  List.insertionSort lenGe cands

/-- Behaviour of the compiled alternation regex at one position: the first
candidate in regex order that is a prefix of the remaining text wins.  Empty
candidates are skipped; `emoji.EMOJI_DATA` keys are nonempty strings, so the
guard never fires on real data and only keeps the scan well founded. -/
def regexpMatchAt (cands : List (List Char)) (t : List Char) : Option (List Char) :=
  (get_emoji_regexp cands).find? (fun c => !c.isEmpty && c.isPrefixOf t)

/-- Modelled from the spec: at one position, match the longest known emoji
sequence, trying the whole candidate set and keeping a longest match. -/
def longestMatchAt (cands : List (List Char)) (t : List Char) : Option (List Char) :=
  cands.foldl
    (fun acc c =>
      if !c.isEmpty && c.isPrefixOf t then
        match acc with
        | none => some c
        | some b => if b.length < c.length then some c else acc
      else acc)
    none

/-- Generic left-to-right scan of `re.findall`: at each position apply the
match function; on a match emit the token and resume after it, otherwise
skip one character.  The fuel argument equals the initial text length and
only makes the recursion structural. -/
def scanFuel (m : List Char → Option (List Char)) : Nat → List Char → List (List Char)
  | 0, _ => []
  | _ + 1, [] => []
  | fuel + 1, c :: rest =>
    match m (c :: rest) with
    | some e =>
      if e.length = 0 then scanFuel m fuel rest
      else e :: scanFuel m fuel (List.drop (e.length - 1) rest)
    | none => scanFuel m fuel rest

/-- Left-to-right scan of the whole text with the match function `m`. -/
def scanWith (m : List Char → Option (List Char)) (t : List Char) : List (List Char) :=
  scanFuel m t.length t

/-- Model of `chat_features.keep_only_emojis`: `re.findall` of the sorted
alternation regex over the text. -/
def keep_only_emojis (cands : List (List Char)) (t : List Char) : List (List Char) :=
  scanWith (regexpMatchAt cands) t

/-- Modelled from the spec: `extractEmojis` scans left-to-right and at each
position matches the longest known emoji sequence (maximal munch), skipping
non-emoji characters. -/
def extractEmojis (cands : List (List Char)) (t : List Char) : List (List Char) :=
  scanWith (longestMatchAt cands) t

/-- Concrete sample of the external `emoji` library's `EMOJI_DATA` keys
(the full table has thousands of entries; this sample includes single- and
multi-codepoint emoji used by the concrete scenarios). -/
def EMOJI_DATA : List (List Char) :=
  [[Char.ofNat 0x1F600],                       -- grinning face
   [Char.ofNat 0x2764, Char.ofNat 0xFE0F],     -- red heart with variation selector
   [Char.ofNat 0x2764],                        -- red heart
   [Char.ofNat 0x1F44D],                       -- thumbs up
   [Char.ofNat 0x1F1E8, Char.ofNat 0x1F1E6]]   -- flag of Canada

/-- Model of the external `emoji.emoji_count`: the library tokenizes the
text by longest-match over `EMOJI_DATA` and counts the emoji tokens. -/
def emoji_count (s : List Char) : Nat :=
  (keep_only_emojis EMOJI_DATA s).length

/-- One raw message record after JSON loading (`chat_db`).  `hasOther` records
whether any field outside the retained set (photos, shares, reactions and so
on) is non-null for this row; `title` is the conversation title attached by
the multi-folder loader. -/
structure RawRow where
  sender_name : List Char
  timestamp_ms : Nat
  content : Option (List Char)
  call_duration : Option Int
  title : Option (List Char) := none
  hasOther : Bool := false
deriving Repr, DecidableEq

/-- A raw pandas DataFrame of messages.  `hasCallCol` records whether the
`call_duration` column exists at all: pandas creates it only when some loaded
record carries the field, and column existence (not per-row nullness) is what
the cleaning code branches on. -/
structure RawTable where
  hasCallCol : Bool
  rows : List RawRow
deriving Repr, DecidableEq

/-- One row of the canonical cleaned table. -/
structure CanonRow where
  sender : List Char
  title : Option (List Char)
  timestamp_ms : Nat
  date : Int
  time : Int
  message : List Char
  callDuration : Option Int
  wordCount : Nat
  emojiCount : Nat
deriving Repr, DecidableEq

/-- The canonical cleaned table, with the same column-existence flag for the
call-duration column. -/
structure CanonTable where
  hasCallCol : Bool
  rows : List CanonRow
deriving Repr, DecidableEq

/-- UTC-offset transitions of the America/Toronto timezone, modelled from the
external IANA tz database exactly as `tz_convert("America/Toronto")` consumes
it: pairs of (transition instant in epoch milliseconds UTC, new offset in
milliseconds), covering the years the concrete inputs live in. -/
def torontoTransitions : List (Nat × Int) :=
  [(1647154800000, -14400000),   -- 2022-03-13 07:00 UTC, EDT begins
   (1667714400000, -18000000),   -- 2022-11-06 06:00 UTC, EST begins
   (1678604400000, -14400000),   -- 2023-03-12 07:00 UTC, EDT begins
   (1699164000000, -18000000),   -- 2023-11-05 06:00 UTC, EST begins
   (1710054000000, -14400000)]   -- 2024-03-10 07:00 UTC, EDT begins

/-- UTC offset of America/Toronto at a given instant: the offset installed by
the latest transition at or before it (Eastern Standard Time before the
modelled window). -/
def torontoOffset (t : Nat) : Int :=
  torontoTransitions.foldl (fun acc p => if p.1 ≤ t then p.2 else acc) (-18000000)

/-- Local wall-clock milliseconds of a UTC instant in America/Toronto. -/
def localMs (t : Nat) : Int :=
  (t : Int) + torontoOffset t

/-- Model of `.dt.date` after `tz_convert`: the local epoch day number. -/
def dateOf (t : Nat) : Int :=
  (localMs t).fdiv 86400000

/-- Model of `.dt.time` after `tz_convert`: local milliseconds since local
midnight. -/
def timeOf (t : Nat) : Int :=
  (localMs t).emod 86400000

/-- Ordering used by `sort_values("timestamp_ms")`: tz-aware datetimes
compare as instants, i.e. by the epoch milliseconds. -/
def tsProp (a b : RawRow) : Prop :=
  a.timestamp_ms ≤ b.timestamp_ms

instance : DecidableRel tsProp := fun a b =>
  inferInstanceAs (Decidable (a.timestamp_ms ≤ b.timestamp_ms))

/-- Ordering used by `sort_values(by=["Date", "Time"])`: lexicographic on the
derived local date and time. -/
def dtProp (a b : RawRow) : Prop :=
  dateOf a.timestamp_ms < dateOf b.timestamp_ms ∨
  (dateOf a.timestamp_ms = dateOf b.timestamp_ms ∧ timeOf a.timestamp_ms ≤ timeOf b.timestamp_ms)

instance : DecidableRel dtProp := fun a b =>
  inferInstanceAs (Decidable
    (dateOf a.timestamp_ms < dateOf b.timestamp_ms ∨
     (dateOf a.timestamp_ms = dateOf b.timestamp_ms ∧
      timeOf a.timestamp_ms ≤ timeOf b.timestamp_ms)))

instance : IsTotal RawRow tsProp :=
  ⟨fun a b => Nat.le_total a.timestamp_ms b.timestamp_ms⟩

instance : IsTrans RawRow tsProp :=
  ⟨fun _ _ _ hab hbc => Nat.le_trans hab hbc⟩

instance : IsTotal RawRow dtProp :=
  ⟨by intro a b; unfold dtProp; omega⟩

instance : IsTrans RawRow dtProp :=
  ⟨by intro a b c hab hbc; unfold dtProp at hab hbc ⊢; omega⟩

/-- Rows of `single_folder.clean_messages` that survive the content filter
(all non-retained columns NaN) and the message-presence filter
(`dropna(subset=["Message"])`), in sorted order (`sort_values` on the
timestamp; pandas quicksort is unstable, but no claim depends on the order
of tied rows).  Both filters only drop rows, so applying them before the
per-row derivations is observationally identical to the source order. -/
def survivingSingle (t : RawTable) : List RawRow :=
  List.insertionSort tsProp
    ((t.rows.filter (fun r => !r.hasOther)).filter (fun r => r.content.isSome))

/-- Rows of `all_folders.clean_messages` surviving the same two filters, in
sorted order (`sort_values` on date and time). -/
def survivingMulti (t : RawTable) : List RawRow :=
  List.insertionSort dtProp
    ((t.rows.filter (fun r => !r.hasOther)).filter (fun r => r.content.isSome))

/-- Whether the pandas mask `Call Duration (Sec) >= 0` selects this row: NaN
compares false. -/
def durNonneg (d : Option Int) : Bool :=
  match d with
  | some v => 0 ≤ v
  | none => false

/-- Whether the row is removed by the filter `Call Duration (Sec) != 0`
(NaN != 0 is True in pandas, so NaN rows are kept). -/
def durIsZero (d : Option Int) : Bool :=
  match d with
  | some v => v = 0
  | none => false

/-- Per-row tail of `single_folder.clean_messages` after the sort: apply
`unicode_emoji_converter` (an encoding failure raises and aborts the run),
compute the word count, drop zero-duration call rows, zero the word count of
non-negative-duration call rows and of URL-bearing messages, and compute the
emoji count.  Returns `none` for a dropped row.  In the source these are
column-wise steps; they are row-wise independent, so the fused form is
observationally identical. -/
def finishRowSingle (hasCall : Bool) (r : RawRow) : Except String (Option CanonRow) :=
  match r.content with
  | none => .ok none
  | some m =>
    match unicode_emoji_converter m with
    | none => .error ("UnicodeError in unicode_emoji_converter")
    | some m2 =>
      let wc0 := word_count m2
      if hasCall && durIsZero r.call_duration then .ok none
      else
        let wc1 := if hasCall && durNonneg r.call_duration then 0 else wc0
        let wc2 := if containsHttp m2 then 0 else wc1
        .ok (some
          { sender := r.sender_name
            title := none
            timestamp_ms := r.timestamp_ms
            date := dateOf r.timestamp_ms
            time := timeOf r.timestamp_ms
            message := m2
            callDuration := if hasCall then r.call_duration else none
            wordCount := wc2
            emojiCount := emoji_count m2 })

/-- Per-row tail of `all_folders.clean_messages` after the sort: identical to
the single-folder tail except that the call-duration column is always
consulted and the conversation title is kept. -/
def finishRowMulti (r : RawRow) : Except String (Option CanonRow) :=
  match r.content with
  | none => .ok none
  | some m =>
    match unicode_emoji_converter m with
    | none => .error ("UnicodeError in unicode_emoji_converter")
    | some m2 =>
      let wc0 := word_count m2
      if durIsZero r.call_duration then .ok none
      else
        let wc1 := if durNonneg r.call_duration then 0 else wc0
        let wc2 := if containsHttp m2 then 0 else wc1
        .ok (some
          { sender := r.sender_name
            title := r.title
            timestamp_ms := r.timestamp_ms
            date := dateOf r.timestamp_ms
            time := timeOf r.timestamp_ms
            message := m2
            callDuration := r.call_duration
            wordCount := wc2
            emojiCount := emoji_count m2 })

/-- Apply a per-row finisher over the sorted rows, propagating the first
raised exception (pandas `apply` raises at the first failing row). -/
def finishRows (f : RawRow → Except String (Option CanonRow)) :
    List RawRow → Except String (List CanonRow)
  | [] => .ok []
  | r :: rs =>
    match f r with
    | .error e => .error e
    | .ok cr? =>
      match finishRows f rs with
      | .error e => .error e
      | .ok rest =>
        .ok (match cr? with
             | some cr => cr :: rest
             | none => rest)

/-- Model of `single_folder.clean_messages` from the assembled raw table
(file loading abstracted away): content filter, date and time derivation,
rename and projection (the call column is kept only when it exists), message
presence filter, sort by timestamp, then the per-row tail. -/
def clean_messages_single (t : RawTable) : Except String CanonTable :=
  match finishRows (finishRowSingle t.hasCallCol) (survivingSingle t) with
  | .error e => .error e
  | .ok rows => .ok { hasCallCol := t.hasCallCol, rows := rows }

/-- Model of `all_folders.clean_messages`: identical shape, but the column
projection names `Call Duration (Sec)` unconditionally, so a table whose
export schema never contained a call record raises `KeyError` before any row
is processed. -/
def clean_messages_multi (t : RawTable) : Except String CanonTable :=
  if t.hasCallCol then
    match finishRows finishRowMulti (survivingMulti t) with
    | .error e => .error e
    | .ok rows => .ok { hasCallCol := true, rows := rows }
  else .error ("KeyError: Call Duration (Sec)")

/-- Model of `pd.concat`: concatenating zero DataFrames raises
`ValueError: No objects to concatenate`; otherwise the rows are concatenated
and the column set is the union, so the call column exists when any part has
it. -/
def pd_concat (ts : List RawTable) : Except String RawTable :=
  match ts with
  | [] => .error ("ValueError: No objects to concatenate")
  | _ =>
    .ok { hasCallCol := ts.any (fun t => t.hasCallCol)
          rows := ts.flatMap (fun t => t.rows) }

/-- Model of `all_messages`: concatenate the per-file raw tables of one
conversation directory. -/
def all_messages (files : List RawTable) : Except String RawTable :=
  pd_concat files

/-- Model of `all_folders.all_folder`: load each usable subdirectory through
`all_messages` and concatenate the per-folder tables. -/
def all_folder (folders : List (List RawTable)) : Except String RawTable :=
  match folders.mapM all_messages with
  | .error e => .error e
  | .ok ts => pd_concat ts

/-- First-occurrence deduplication, with an accumulator of already seen keys
(model of iterating `df["Sender"].unique()`; pandas `groupby` sorts the keys
instead, but no claim depends on the order of the per-sender rows). -/
def firstUniquesAux (seen : List (List Char)) : List (List Char) → List (List Char)
  | [] => []
  | s :: rest =>
    if s ∈ seen then firstUniquesAux seen rest
    else s :: firstUniquesAux (s :: seen) rest

/-- Keys of a column in first-occurrence order, without duplicates. -/
def firstUniques (l : List (List Char)) : List (List Char) :=
  firstUniquesAux [] l

/-- Whether the pandas mask `Call Duration (Sec) > 0` selects this row (NaN
compares false). -/
def durPos (d : Option Int) : Bool :=
  match d with
  | some v => 0 < v
  | none => false

/-- One output row of `message_stats` (a row of the per-sender DataFrame or
the synthetic Total row): message count, word-count sum, and call-duration
sum when the call column exists. -/
structure StatRow where
  sender : List Char
  msgCount : Nat
  wordSum : Nat
  callSum : Int
deriving Repr, DecidableEq

/-- Output of `message_stats`: the per-sender rows plus the Total row's
column sums. -/
structure MessageStats where
  hasCallCol : Bool
  perSender : List StatRow
  totalMsgCount : Nat
  totalWordSum : Nat
  totalCallSum : Int
deriving Repr, DecidableEq

/-- Model of `chat_features.message_stats`.  URL-bearing rows are dropped
first.  If the call column exists, per-sender call-duration sums are computed
on the URL-filtered rows (NaN summing as 0, as pandas does), rows with a
positive call duration are then dropped, counts and word sums are grouped
over the remaining rows, and the call sums are attached by index alignment:
only senders still present after the exclusion receive their sum.  The Total
row is the column-wise sum of the per-sender rows. -/
def message_stats (t : CanonTable) : MessageStats :=
  let df1 := t.rows.filter (fun r => !containsHttp r.message)
  if t.hasCallCol then
    let callSumOf := fun s =>
      ((df1.filter (fun r => r.sender = s)).map (fun r => r.callDuration.getD 0)).sum
    let df2 := df1.filter (fun r => !durPos r.callDuration)
    let ks := firstUniques (df2.map (fun r => r.sender))
    let perSender := ks.map (fun s =>
      { sender := s
        msgCount := (df2.filter (fun r => r.sender = s)).length
        wordSum := ((df2.filter (fun r => r.sender = s)).map (fun r => r.wordCount)).sum
        callSum := callSumOf s })
    { hasCallCol := true
      perSender := perSender
      totalMsgCount := (perSender.map (fun p => p.msgCount)).sum
      totalWordSum := (perSender.map (fun p => p.wordSum)).sum
      totalCallSum := (perSender.map (fun p => p.callSum)).sum }
  else
    let ks := firstUniques (df1.map (fun r => r.sender))
    let perSender := ks.map (fun s =>
      { sender := s
        msgCount := (df1.filter (fun r => r.sender = s)).length
        wordSum := ((df1.filter (fun r => r.sender = s)).map (fun r => r.wordCount)).sum
        callSum := 0 })
    { hasCallCol := false
      perSender := perSender
      totalMsgCount := (perSender.map (fun p => p.msgCount)).sum
      totalWordSum := (perSender.map (fun p => p.wordSum)).sum
      totalCallSum := 0 }

/-- The ASCII punctuation set `string.punctuation` (code points 33-47, 58-64,
91-96 and 123-126). -/
def string_punctuation : List Char :=
  ((List.range 127).filter (fun n =>
    (33 ≤ n && n ≤ 47) || (58 ≤ n && n ≤ 64) || (91 ≤ n && n ≤ 96) || 123 ≤ n)).map Char.ofNat

/-- Model of `chat_features.words_without_punctuation`: delete every ASCII
punctuation character. -/
def words_without_punctuation (s : List Char) : List Char :=
  s.filter (fun c => !string_punctuation.contains c)

/-- Capitalization of one regex match of `[A-Za-z]+(\x27[A-Za-z]+)?`: first
character upper-cased, the rest lower-cased. -/
def capMatch : List Char → List Char
  | [] => []
  | c :: cs => c.toUpper :: cs.map Char.toLower

/-- Model of the capitalizing `re.sub` in `prep_text` with `cap=True`: scan
for maximal matches of `[A-Za-z]+(\x27[A-Za-z]+)?` and rewrite each through
`capMatch`, leaving other characters alone.  Fuel-driven so the recursion is
structural; the fuel equals the text length, which one-or-more characters are
consumed per step, so it never runs out. -/
def titleCaseFuel : Nat → List Char → List Char
  | 0, _ => []
  | _ + 1, [] => []
  | fuel + 1, c :: cs =>
    if c.isAlpha then
      let run1 := (c :: cs).takeWhile Char.isAlpha
      let rest1 := (c :: cs).dropWhile Char.isAlpha
      match rest1 with
      | q :: tl =>
        if q = Char.ofNat 39 && (tl.headD (Char.ofNat 0)).isAlpha then
          let run2 := tl.takeWhile Char.isAlpha
          let rest2 := tl.dropWhile Char.isAlpha
          capMatch (run1 ++ q :: run2) ++ titleCaseFuel fuel rest2
        else capMatch run1 ++ titleCaseFuel fuel rest1
      | [] => capMatch run1
    else c :: titleCaseFuel fuel cs

/-- The capitalizing pass of `prep_text` over a whole string. -/
def titleCase (s : List Char) : List Char :=
  titleCaseFuel s.length s

/-- Model of `chat_features.prep_text` with `cap=True`: capitalize each word,
remove every character outside `[\w\d\s\x27]`, and split on whitespace. -/
def prep_text_cap (s : List Char) : List (List Char) :=
  pySplit ((titleCase s).filter keptByPrepText)

/-- The stop-word list of `chat_features.top_words`. -/
def stop_words : List (List Char) :=
  (["i", "me", "my", "myself", "we", "our", "ours", "ourselves", "you", "your", "yours",
    "yourself", "yourselves", "he", "him", "his", "himself", "she", "her", "hers", "herself",
    "it", "its", "itself", "they", "them", "their", "theirs", "themselves", "what", "which",
    "who", "whom", "this", "that", "these", "those", "am", "is", "are", "was", "were", "be",
    "been", "being", "have", "has", "had", "having", "do", "does", "did", "doing", "a", "an",
    "the", "and", "but", "if", "or", "because", "as", "until", "while", "of", "at", "by", "for",
    "with", "about", "against", "between", "into", "through", "during", "before", "after",
    "above", "below", "to", "from", "up", "down", "in", "out", "on", "off", "over", "under",
    "again", "further", "then", "once", "here", "there", "when", "where", "why", "how", "all",
    "any", "both", "each", "few", "more", "most", "other", "some", "such", "no", "nor", "not",
    "only", "own", "same", "so", "than", "too", "very", "s", "t", "can", "will", "just", "don",
    "should", "now", "d", "ll", "m", "o", "re", "ve", "y", "ain", "aren", "couldn", "didn",
    "doesn", "hadn", "hasn", "haven", "isn", "ma", "mightn", "mustn", "needn", "shan", "shouldn",
    "wasn", "weren", "won", "wouldn", "ur", "u", "r", "c", "k", "b", "n", "ppl", "btw", "cuz",
    "bc", "dm", "kk", "wat", "ok", "yeah", "im", "like"]).map String.toList

/-- The stop words after `str.title()`; every entry is a single lowercase
ASCII word, for which `title()` upper-cases the first letter and lower-cases
the rest. -/
def stop_words_title : List (List Char) :=
  stop_words.map capMatch

/-- One row of the `top_words` output: a word, a sender and its count. -/
structure WordCountRow where
  word : List Char
  sender : List Char
  count : Nat
deriving Repr, DecidableEq

/-- Counts of each token of a list in first-occurrence order (model of
`collections.Counter` updated in encounter order). -/
def countTokens (ws : List (List Char)) : List (List Char × Nat) :=
  (firstUniques ws).map (fun w => (w, (ws.filter (fun x => x = w)).length))

/-- Model of `chat_features.top_words`.  The function indexes the
`Call Duration (Sec)` column unconditionally, so on a table without that
column it raises `KeyError` before any processing; with the column present it
drops URL rows and positive-duration call rows, strips punctuation,
title-cases and tokenizes each message, counts tokens per sender, removes the
title-cased stop words, and returns all (word, sender, count) rows sorted by
descending count (tie order not claim-relevant). -/
def top_words (t : CanonTable) : Except String (List WordCountRow) :=
  let df0 := t.rows.filter (fun r => !containsHttp r.message)
  if t.hasCallCol then
    let df := df0.filter (fun r => !durPos r.callDuration)
    let tokensOf := fun (r : CanonRow) => prep_text_cap (words_without_punctuation r.message)
    let ks := firstUniques (df.map (fun r => r.sender))
    let rows := ks.flatMap (fun s =>
      ((countTokens ((df.filter (fun r => r.sender = s)).flatMap tokensOf)).filter
        (fun wc => !stop_words_title.contains wc.1)).map
        (fun wc => { word := wc.1, sender := s, count := wc.2 }))
    .ok (List.insertionSort (fun a b => b.count ≤ a.count) rows)
  else .error ("KeyError: Call Duration (Sec)")

/-- Raw single-conversation table whose only message cannot be encoding
repaired: the character é (code point 233) is latin1-encodable, but the byte
233 alone is not valid UTF-8. -/
def tCafe : RawTable :=
  { hasCallCol := false
    rows := [{ sender_name := String.toList "Alice"
               timestamp_ms := 1700000000000
               content := some (String.toList "café")
               call_duration := none }] }

/-- Raw table with one repairable message and one unrepairable message. -/
def tC1w : RawTable :=
  { hasCallCol := false
    rows := [{ sender_name := String.toList "Alice"
               timestamp_ms := 1700000000000
               content := some (String.toList "hello")
               call_duration := none },
             { sender_name := String.toList "Alice"
               timestamp_ms := 1700000001000
               content := some (String.toList "café")
               call_duration := none }] }

/-- Raw table with the spec's URL scenario message. -/
def tHttp : RawTable :=
  { hasCallCol := false
    rows := [{ sender_name := String.toList "Alice"
               timestamp_ms := 1700000000000
               content := some (String.toList "check http://x.com now")
               call_duration := none }] }

/-- The two raw records of the C4 scenario with the emoji taken literally:
content contains the grinning-face code point 0x1F600 itself. -/
def tC4lit : RawTable :=
  { hasCallCol := true
    rows := [{ sender_name := String.toList "Alice"
               timestamp_ms := 1700000000000
               content := some (String.toList "Hello " ++ [Char.ofNat 0x1F600] ++ String.toList " world")
               call_duration := none },
             { sender_name := String.toList "Alice"
               timestamp_ms := 1700000001000
               content := none
               call_duration := some 5 }] }

/-- The two raw records of the C4 scenario as a real export delivers them:
the emoji arrives mojibake, as the latin1 misreading of its UTF-8 bytes
(code points 0xF0 0x9F 0x98 0x80). -/
def tC4moj : RawTable :=
  { hasCallCol := true
    rows := [{ sender_name := String.toList "Alice"
               timestamp_ms := 1700000000000
               content := some (String.toList "Hello " ++
                 [Char.ofNat 0xF0, Char.ofNat 0x9F, Char.ofNat 0x98, Char.ofNat 0x80] ++
                 String.toList " world")
               call_duration := none },
             { sender_name := String.toList "Alice"
               timestamp_ms := 1700000001000
               content := none
               call_duration := some 5 }] }

/-- Raw single-conversation table straddling the 2023-11-05 DST fall-back of
America/Toronto: 05:45 UTC is 01:45 EDT, 06:15 UTC is 01:15 EST, so the later
instant has the earlier local wall clock. -/
def tDST : RawTable :=
  { hasCallCol := false
    rows := [{ sender_name := String.toList "Alice"
               timestamp_ms := 1699164900000
               content := some (String.toList "b")
               call_duration := none },
             { sender_name := String.toList "Alice"
               timestamp_ms := 1699163100000
               content := some (String.toList "a")
               call_duration := none }] }

/-- Canonical row: a plain text message from Alice. -/
def rAliceHi : CanonRow :=
  { sender := String.toList "Alice"
    title := none
    timestamp_ms := 1700000000000
    date := 19675
    time := 62000000
    message := String.toList "hi"
    callDuration := none
    wordCount := 1
    emojiCount := 0 }

/-- Canonical row: a call-log row from Bob with a positive duration. -/
def rBobCall : CanonRow :=
  { sender := String.toList "Bob"
    title := none
    timestamp_ms := 1700000001000
    date := 19675
    time := 62001000
    message := String.toList "Bob called you."
    callDuration := some 7
    wordCount := 0
    emojiCount := 0 }

/-- Canonical table with one text sender and one call-only sender. -/
def tC7 : CanonTable :=
  { hasCallCol := true, rows := [rAliceHi, rBobCall] }

/-- Canonical table whose only sender has only positive-duration call rows. -/
def tC10 : CanonTable :=
  { hasCallCol := true, rows := [rBobCall] }

/-- Canonical table of a conversation that never had a call record: the
call-duration column is absent. -/
def tC9 : CanonTable :=
  { hasCallCol := false, rows := [rAliceHi] }

/-- Raw multi-conversation table of a corpus with no call records at all. -/
def tNoCallMulti : RawTable :=
  { hasCallCol := false
    rows := [{ sender_name := String.toList "Alice"
               timestamp_ms := 1700000000000
               content := some (String.toList "hi")
               call_duration := none
               title := some (String.toList "Alice Chat") }] }

/-- Raw single-conversation table of a conversation with no call records. -/
def tNoCallSingle : RawTable :=
  { hasCallCol := false
    rows := [{ sender_name := String.toList "Alice"
               timestamp_ms := 1700000000000
               content := some (String.toList "hi")
               call_duration := none }] }

/-- Whether encoding repair raises on this raw row's message. -/
def badRow (r : RawRow) : Bool :=
  match r.content with
  | some m => (unicode_emoji_converter m).isNone
  | none => false

/-- Canonical row produced for the URL scenario message. -/
def rowHttp : CanonRow :=
  { sender := String.toList "Alice"
    title := none
    timestamp_ms := 1700000000000
    date := 19675
    time := 62000000
    message := String.toList "check http://x.com now"
    callDuration := none
    wordCount := 0
    emojiCount := 0 }

/-- Canonical table produced by the single-folder pipeline on `tHttp`. -/
def cHttp : CanonTable :=
  { hasCallCol := false, rows := [rowHttp] }

/-- Canonical row produced for the repaired C4 scenario message. -/
def rowC4 : CanonRow :=
  { sender := String.toList "Alice"
    title := none
    timestamp_ms := 1700000000000
    date := 19675
    time := 62000000
    message := String.toList "Hello " ++ [Char.ofNat 0x1F600] ++ String.toList " world"
    callDuration := none
    wordCount := 2
    emojiCount := 1 }

/-- Canonical table produced by the pipeline on `tC4moj`: exactly one row. -/
def cC4 : CanonTable :=
  { hasCallCol := true, rows := [rowC4] }

/-- The two canonical rows produced from `tDST`, in pipeline output order. -/
def rowDSTa : CanonRow :=
  { sender := String.toList "Alice"
    title := none
    timestamp_ms := 1699163100000
    date := 19666
    time := 6300000
    message := [Char.ofNat 97]
    callDuration := none
    wordCount := 1
    emojiCount := 0 }

/-- Second canonical row of the `tDST` output: a later instant with an
earlier local wall clock. -/
def rowDSTb : CanonRow :=
  { sender := String.toList "Alice"
    title := none
    timestamp_ms := 1699164900000
    date := 19666
    time := 4500000
    message := [Char.ofNat 98]
    callDuration := none
    wordCount := 1
    emojiCount := 0 }

/-- Canonical table produced by the single-folder pipeline on `tNoCallSingle`. -/
def cNoCallSingle : CanonTable :=
  { hasCallCol := false
    rows := [{ sender := String.toList "Alice"
               title := none
               timestamp_ms := 1700000000000
               date := 19675
               time := 62000000
               message := String.toList "hi"
               callDuration := none
               wordCount := 1
               emojiCount := 0 }] }

/-- A raw multi-conversation table whose every row is removed by the
cleaning filters: one media row (a non-retained field is populated) dropped
by the content filter, and one null-content call record dropped by the
message-presence filter. -/
def tAllFiltered : RawTable :=
  { hasCallCol := true
    rows := [{ sender_name := String.toList "Alice"
               timestamp_ms := 1700000000000
               content := some (String.toList "You sent a photo.")
               call_duration := none
               title := some (String.toList "Alice Chat")
               hasOther := true },
             { sender_name := String.toList "Alice"
               timestamp_ms := 1700000001000
               content := none
               call_duration := some 5
               title := some (String.toList "Alice Chat") }] }

/-- The claim's sort order on canonical rows: ascending lexicographically by
(date, time). -/
def dtLeC (a b : CanonRow) : Prop :=
  a.date < b.date ∨ (a.date = b.date ∧ a.time ≤ b.time)

instance : DecidableRel dtLeC := fun a b =>
  inferInstanceAs (Decidable (a.date < b.date ∨ (a.date = b.date ∧ a.time ≤ b.time)))

/-- Ascending raw-timestamp order on canonical rows. -/
def tsLeC (a b : CanonRow) : Prop :=
  a.timestamp_ms ≤ b.timestamp_ms

instance : DecidableRel tsLeC := fun a b =>
  inferInstanceAs (Decidable (a.timestamp_ms ≤ b.timestamp_ms))

/-- Boolean membership of a key in a key list (used to state the grouping
lemmas and the stat-total theorems with one fixed elaboration). -/
def memKey {K : Type} [DecidableEq K] (x : K) : List K → Bool
  | [] => false
  | k :: ks => x = k || memKey x ks

/-- Senders that still have at least one row after `message_stats` drops
URL-bearing rows and positive-call-duration rows; only these senders receive
their call-duration sum in the per-sender output. -/
def sendersAfterExclusion (t : CanonTable) : List (List Char) :=
  firstUniques
    (((t.rows.filter (fun r => !containsHttp r.message)).filter
        (fun r => !durPos r.callDuration)).map (fun r => r.sender))

/-- Concrete scan input: a known two-codepoint emoji (red heart with
variation selector) between two letters. -/
def tHeart : List Char :=
  [Char.ofNat 97, Char.ofNat 0x2764, Char.ofNat 0xFE0F, Char.ofNat 98]

/-- Word-count zeroing invariant of one canonical row: a non-null,
non-negative call duration forces a zero word count, and so does a message
containing the substring http. -/
def rowZeroProp (r : CanonRow) : Prop :=
  (∀ v : Int, r.callDuration = some v → 0 ≤ v → r.wordCount = 0) ∧
  (containsHttp r.message = true → r.wordCount = 0)

theorem finishRowSingle_rowZero (hasCall : Bool) (r : RawRow) (cr : CanonRow)
    (h : finishRowSingle hasCall r = .ok (some cr)) : rowZeroProp cr := by
  cases hc : r.content with
  | none => simp [finishRowSingle, hc] at h
  | some m =>
    cases hu : unicode_emoji_converter m with
    | none => simp [finishRowSingle, hc, hu] at h
    | some m2 =>
      simp only [finishRowSingle, hc, hu] at h
      split at h
      · simp at h
      · simp only [Except.ok.injEq, Option.some.injEq] at h
        subst h
        constructor
        · intro v hv hv0
          by_cases hcall : hasCall
          · simp only [hcall, if_true] at hv
            simp [durNonneg, hcall, hv, hv0]
          · simp [hcall] at hv
        · intro hh
          simp [hh]

theorem finishRowMulti_rowZero (r : RawRow) (cr : CanonRow)
    (h : finishRowMulti r = .ok (some cr)) : rowZeroProp cr := by
  cases hc : r.content with
  | none => simp [finishRowMulti, hc] at h
  | some m =>
    cases hu : unicode_emoji_converter m with
    | none => simp [finishRowMulti, hc, hu] at h
    | some m2 =>
      simp only [finishRowMulti, hc, hu] at h
      split at h
      · simp at h
      · simp only [Except.ok.injEq, Option.some.injEq] at h
        subst h
        constructor
        · intro v hv hv0
          simp only at hv
          simp [durNonneg, hv, hv0]
        · intro hh
          simp [hh]

theorem finishRows_ok_forall {f : RawRow → Except String (Option CanonRow)}
    {P : CanonRow → Prop} (hf : ∀ r cr, f r = .ok (some cr) → P cr) :
    ∀ {l : List RawRow} {out : List CanonRow},
      finishRows f l = .ok out → ∀ cr ∈ out, P cr := by
  intro l
  induction l with
  | nil =>
    intro out h cr hcr
    simp only [finishRows] at h
    cases h
    simp at hcr
  | cons r rs ih =>
    intro out h cr hcr
    simp only [finishRows] at h
    cases hr : f r with
    | error e => rw [hr] at h; simp at h
    | ok cr? =>
      rw [hr] at h
      cases hrs : finishRows f rs with
      | error e => rw [hrs] at h; simp at h
      | ok rest =>
        rw [hrs] at h
        cases h
        cases cr? with
        | some cr2 =>
          rcases List.mem_cons.mp hcr with h1 | h2
          · subst h1; exact hf r cr hr
          · exact ih hrs cr h2
        | none => exact ih hrs cr hcr

theorem finishRows_error_of_bad (hasCall : Bool) :
    ∀ l : List RawRow, (∃ r ∈ l, badRow r = true) →
      ∃ e, finishRows (finishRowSingle hasCall) l = .error e := by
  intro l
  induction l with
  | nil => rintro ⟨r, hr, _⟩; simp at hr
  | cons a as ih =>
    rintro ⟨r, hr, hbad⟩
    rcases List.mem_cons.mp hr with h1 | hmem
    · subst h1
      have herr : finishRowSingle hasCall r = .error ("UnicodeError in unicode_emoji_converter") := by
        cases hc : r.content with
        | none => simp [badRow, hc] at hbad
        | some m =>
          simp only [badRow, hc, Option.isNone_iff_eq_none] at hbad
          simp [finishRowSingle, hc, hbad]
      exact ⟨"UnicodeError in unicode_emoji_converter", by simp [finishRows, herr]⟩
    · cases hf : finishRowSingle hasCall a with
      | error e => exact ⟨e, by simp [finishRows, hf]⟩
      | ok cr? =>
        obtain ⟨e, he⟩ := ih ⟨r, hmem, hbad⟩
        exact ⟨e, by simp [finishRows, hf, he]⟩

/-- C1: the claim asserts that when encoding repair fails for one message the
pipeline falls back to the original text for that row and continues.  The
code has no handler: whenever any surviving row's message fails the latin1
re-encode / UTF-8 re-decode, the whole cleaning run raises. -/
theorem C1_repair_failure_aborts (t : RawTable)
    (hbad : ∃ r ∈ survivingSingle t, badRow r = true) :
    ∃ e, clean_messages_single t = .error e := by
  obtain ⟨e, he⟩ := finishRows_error_of_bad t.hasCallCol (survivingSingle t) hbad
  exact ⟨e, by simp [clean_messages_single, he]⟩

/-- C1 witness: a table with one repairable and one unrepairable message
satisfies the hypothesis, and the run aborts. -/
theorem C1_repair_failure_aborts_witness :
    (∃ r ∈ survivingSingle tC1w, badRow r = true) ∧
    (∃ e, clean_messages_single tC1w = .error e) :=
  ⟨by decide, C1_repair_failure_aborts tC1w (by decide)⟩

/-- C1 counterexample: on a one-row table whose message é cannot be repaired
(the byte 233 alone is not valid UTF-8), the pipeline returns an error
instead of a table that preserves the original text. -/
theorem C1_counterexample :
    unicode_emoji_converter (String.toList "café") = none ∧
    clean_messages_single tCafe = .error ("UnicodeError in unicode_emoji_converter") :=
  ⟨rfl, rfl⟩

/-- C2: for every row of the canonical table, in both pipeline modes, a
non-null call duration of at least zero forces a zero word count, and a
message containing http forces a zero word count; and the concrete message
check http://x.com now comes out with word count zero. -/
theorem C2_word_count_zeroing :
    (∀ (t : RawTable) (c : CanonTable),
      clean_messages_single t = .ok c → ∀ r ∈ c.rows, rowZeroProp r) ∧
    (∀ (t : RawTable) (c : CanonTable),
      clean_messages_multi t = .ok c → ∀ r ∈ c.rows, rowZeroProp r) ∧
    clean_messages_single tHttp = .ok cHttp ∧ rowHttp.wordCount = 0 := by
  refine ⟨?_, ?_, rfl, rfl⟩
  · intro t c h r hr
    cases hm : finishRows (finishRowSingle t.hasCallCol) (survivingSingle t) with
    | error e => simp [clean_messages_single, hm] at h
    | ok rows =>
      simp only [clean_messages_single, hm, Except.ok.injEq] at h
      subst h
      exact finishRows_ok_forall
        (fun r2 cr2 hrc => finishRowSingle_rowZero t.hasCallCol r2 cr2 hrc) hm r hr
  · intro t c h r hr
    by_cases hcol : t.hasCallCol
    · cases hm : finishRows finishRowMulti (survivingMulti t) with
      | error e => simp [clean_messages_multi, hcol, hm] at h
      | ok rows =>
        simp only [clean_messages_multi, hcol, if_true, hm, Except.ok.injEq] at h
        subst h
        exact finishRows_ok_forall
          (fun r2 cr2 hrc => finishRowMulti_rowZero r2 cr2 hrc) hm r hr
    · simp [clean_messages_multi, hcol] at h

/-- C2 witness: the universal part applied to the concrete URL table. -/
theorem C2_word_count_zeroing_witness :
    containsHttp rowHttp.message = true ∧ rowHttp.wordCount = 0 :=
  ⟨by decide, (C2_word_count_zeroing.1 tHttp cHttp rfl rowHttp (by decide)).2 (by decide)⟩

/-- C3: the claim asserts that zero usable subdirectories yield an empty
canonical table and that empty input never raises.  In the code `pd.concat`
of zero objects raises, so the assembler errors on an empty folder list.
When assembly succeeds and the content and message-presence filters remove
every message, the single-folder pipeline returns an empty canonical table
without raising, and so does the multi-folder pipeline when the
call-duration column exists; a multi-folder corpus without that column
still raises KeyError at the column projection even with zero surviving
messages. -/
theorem C3_empty_input :
    (∃ e, all_folder [] = .error e) ∧
    (∀ t : RawTable,
      (t.rows.filter (fun r => !r.hasOther)).filter (fun r => r.content.isSome) = [] →
      clean_messages_single t = .ok { hasCallCol := t.hasCallCol, rows := [] }) ∧
    (∀ t : RawTable, t.hasCallCol = true →
      (t.rows.filter (fun r => !r.hasOther)).filter (fun r => r.content.isSome) = [] →
      clean_messages_multi t = .ok { hasCallCol := true, rows := [] }) ∧
    (∀ t : RawTable, t.hasCallCol = false →
      clean_messages_multi t = .error ("KeyError: Call Duration (Sec)")) := by
  refine ⟨⟨_, rfl⟩, ?_, ?_, ?_⟩
  · intro t h
    simp [clean_messages_single, survivingSingle, h, finishRows]
  · intro t hcol h
    simp [clean_messages_multi, survivingMulti, h, hcol, finishRows]
  · intro t hcol
    simp [clean_messages_multi, hcol]

/-- C3 witness: a table whose two rows are both removed by the filters (a
media row and a null-content call record) cleans to an empty canonical table
in both modes. -/
theorem C3_empty_input_witness :
    clean_messages_single tAllFiltered = .ok { hasCallCol := true, rows := [] } ∧
    clean_messages_multi tAllFiltered = .ok { hasCallCol := true, rows := [] } :=
  ⟨C3_empty_input.2.1 tAllFiltered (by decide),
   C3_empty_input.2.2.1 tAllFiltered rfl (by decide)⟩

/-- C3 counterexample: a root directory with zero usable subdirectories makes
the assembler raise, rather than produce an empty table. -/
theorem C3_counterexample :
    all_folder [] = .error ("ValueError: No objects to concatenate") :=
  rfl

/-- C8: the claim asserts both modes omit the call column and do not raise
when the export schema never had call records.  The single-folder pipeline
does omit the column; the multi-folder pipeline projects onto a fixed column
list naming the call column unconditionally, so it raises KeyError. -/
theorem C8_no_call_column :
    (∀ (t : RawTable) (c : CanonTable), t.hasCallCol = false →
      clean_messages_single t = .ok c → c.hasCallCol = false) ∧
    (∀ t : RawTable, t.hasCallCol = false →
      clean_messages_multi t = .error ("KeyError: Call Duration (Sec)")) := by
  constructor
  · intro t c hcol h
    cases hm : finishRows (finishRowSingle t.hasCallCol) (survivingSingle t) with
    | error e => simp [clean_messages_single, hm] at h
    | ok rows =>
      simp only [clean_messages_single, hm, Except.ok.injEq] at h
      subst h
      exact hcol
  · intro t hcol
    simp [clean_messages_multi, hcol]

/-- C8 witness: on concrete no-call-record tables, the single-folder pipeline
succeeds with the column omitted while the multi-folder pipeline raises. -/
theorem C8_no_call_column_witness :
    clean_messages_single tNoCallSingle = .ok cNoCallSingle ∧
    cNoCallSingle.hasCallCol = false ∧
    clean_messages_multi tNoCallMulti = .error ("KeyError: Call Duration (Sec)") :=
  ⟨rfl, C8_no_call_column.1 tNoCallSingle cNoCallSingle rfl rfl,
   C8_no_call_column.2 tNoCallMulti rfl⟩

/-- C8 counterexample: a multi-conversation corpus with no call records makes
the cleaning pipeline raise KeyError instead of omitting the column. -/
theorem C8_counterexample :
    clean_messages_multi tNoCallMulti = .error ("KeyError: Call Duration (Sec)") :=
  rfl

/-- C4 counterexample: on the two raw records of the scenario with the emoji
taken literally, the pipeline raises inside encoding repair (the emoji code
point cannot be latin1-encoded) instead of producing one canonical row. -/
theorem C4_counterexample :
    clean_messages_single tC4lit = .error ("UnicodeError in unicode_emoji_converter") :=
  rfl

/-- C4 amended: with the message content in the mojibake form real exports
deliver (the latin1 misreading of the UTF-8 emoji bytes), the pipeline
produces exactly one canonical row: the null-content call record is dropped
by the message-presence filter and the surviving row carries the repaired
text with word count 2 and emoji count 1. -/
theorem C4_one_row_scenario :
    clean_messages_single tC4moj = .ok cC4 ∧
    cC4.rows = [rowC4] ∧
    rowC4.message = String.toList "Hello " ++ [Char.ofNat 0x1F600] ++ String.toList " world" ∧
    rowC4.wordCount = 2 ∧ rowC4.emojiCount = 1 :=
  ⟨rfl, rfl, rfl, rfl, rfl⟩

theorem finishRowSingle_keys (hasCall : Bool) (r : RawRow) (cr : CanonRow)
    (h : finishRowSingle hasCall r = .ok (some cr)) :
    cr.timestamp_ms = r.timestamp_ms ∧
    cr.date = dateOf r.timestamp_ms ∧ cr.time = timeOf r.timestamp_ms := by
  cases hc : r.content with
  | none => simp [finishRowSingle, hc] at h
  | some m =>
    cases hu : unicode_emoji_converter m with
    | none => simp [finishRowSingle, hc, hu] at h
    | some m2 =>
      simp only [finishRowSingle, hc, hu] at h
      split at h
      · simp at h
      · simp only [Except.ok.injEq, Option.some.injEq] at h
        subst h
        exact ⟨rfl, rfl, rfl⟩

theorem finishRowMulti_keys (r : RawRow) (cr : CanonRow)
    (h : finishRowMulti r = .ok (some cr)) :
    cr.timestamp_ms = r.timestamp_ms ∧
    cr.date = dateOf r.timestamp_ms ∧ cr.time = timeOf r.timestamp_ms := by
  cases hc : r.content with
  | none => simp [finishRowMulti, hc] at h
  | some m =>
    cases hu : unicode_emoji_converter m with
    | none => simp [finishRowMulti, hc, hu] at h
    | some m2 =>
      simp only [finishRowMulti, hc, hu] at h
      split at h
      · simp at h
      · simp only [Except.ok.injEq, Option.some.injEq] at h
        subst h
        exact ⟨rfl, rfl, rfl⟩

theorem finishRows_map_sublist {f : RawRow → Except String (Option CanonRow)}
    {K : Type} (ck : CanonRow → K) (rk : RawRow → K)
    (hf : ∀ r cr, f r = .ok (some cr) → ck cr = rk r) :
    ∀ {l : List RawRow} {out : List CanonRow},
      finishRows f l = .ok out → List.Sublist (out.map ck) (l.map rk) := by
  intro l
  induction l with
  | nil =>
    intro out h
    simp only [finishRows] at h
    cases h
    simp
  | cons r rs ih =>
    intro out h
    simp only [finishRows] at h
    cases hr : f r with
    | error e => rw [hr] at h; simp at h
    | ok cr? =>
      rw [hr] at h
      cases hrs : finishRows f rs with
      | error e => rw [hrs] at h; simp at h
      | ok rest =>
        rw [hrs] at h
        cases h
        cases cr? with
        | some cr =>
          simp only [List.map_cons]
          rw [hf r cr hr]
          exact List.Sublist.cons₂ _ (ih hrs)
        | none => exact List.Sublist.cons _ (ih hrs)

/-- C5: the claim asserts every canonical table is sorted ascending by
(date, time).  The multi-folder pipeline sorts by date and time, and the
later filters and updates never reorder, so there the invariant holds; the
single-folder pipeline sorts by the raw timestamp, which agrees with
(date, time) except across a DST fall-back (see the counterexample), so for
it only ascending timestamps are guaranteed. -/
theorem C5_sort_invariant :
    (∀ (t : RawTable) (c : CanonTable),
      clean_messages_multi t = .ok c → c.rows.Pairwise dtLeC) ∧
    (∀ (t : RawTable) (c : CanonTable),
      clean_messages_single t = .ok c → c.rows.Pairwise tsLeC) := by
  constructor
  · intro t c h
    by_cases hcol : t.hasCallCol
    · cases hm : finishRows finishRowMulti (survivingMulti t) with
      | error e => simp [clean_messages_multi, hcol, hm] at h
      | ok rows =>
        simp only [clean_messages_multi, hcol, if_true, hm, Except.ok.injEq] at h
        subst h
        have hsorted : (survivingMulti t).Pairwise dtProp :=
          List.sorted_insertionSort dtProp _
        have hmapped :
            ((survivingMulti t).map
              (fun r => (dateOf r.timestamp_ms, timeOf r.timestamp_ms))).Pairwise
              (fun p q : Int × Int => p.1 < q.1 ∨ (p.1 = q.1 ∧ p.2 ≤ q.2)) := by
          rw [List.pairwise_map]
          exact hsorted
        have hsub := finishRows_map_sublist
          (fun cr => (cr.date, cr.time))
          (fun r => (dateOf r.timestamp_ms, timeOf r.timestamp_ms))
          (fun r cr hrc => by
            obtain ⟨_, h2, h3⟩ := finishRowMulti_keys r cr hrc
            simp [h2, h3]) hm
        have := hmapped.sublist hsub
        rw [List.pairwise_map] at this
        exact this
    · simp [clean_messages_multi, hcol] at h
  · intro t c h
    cases hm : finishRows (finishRowSingle t.hasCallCol) (survivingSingle t) with
    | error e => simp [clean_messages_single, hm] at h
    | ok rows =>
      simp only [clean_messages_single, hm, Except.ok.injEq] at h
      subst h
      have hsorted : (survivingSingle t).Pairwise tsProp :=
        List.sorted_insertionSort tsProp _
      have hmapped :
          ((survivingSingle t).map (fun r => r.timestamp_ms)).Pairwise
            (fun a b : Nat => a ≤ b) := by
        rw [List.pairwise_map]
        exact hsorted
      have hsub := finishRows_map_sublist
        (fun cr => cr.timestamp_ms) (fun r => r.timestamp_ms)
        (fun r cr hrc => (finishRowSingle_keys t.hasCallCol r cr hrc).1) hm
      have := hmapped.sublist hsub
      rw [List.pairwise_map] at this
      exact this

/-- C5 witness: the multi-folder invariant applied to a concrete run. -/
theorem C5_sort_invariant_witness :
    clean_messages_multi tC4moj = .ok cC4 ∧ cC4.rows.Pairwise dtLeC :=
  ⟨rfl, C5_sort_invariant.1 tC4moj cC4 rfl⟩

/-- C5 counterexample: two messages straddling the DST fall-back come out of
the single-folder pipeline sorted by timestamp but with strictly decreasing
(date, time): 01:45 EDT is followed by 01:15 EST. -/
theorem C5_counterexample :
    clean_messages_single tDST = .ok { hasCallCol := false, rows := [rowDSTa, rowDSTb] } ∧
    ¬ dtLeC rowDSTa rowDSTb :=
  ⟨rfl, by decide⟩

theorem firstUniquesAux_mem :
    ∀ (l seen : List (List Char)) (x : List Char),
      x ∈ firstUniquesAux seen l ↔ (x ∈ l ∧ x ∉ seen) := by
  intro l
  induction l with
  | nil => intro seen x; simp [firstUniquesAux]
  | cons s rest ih =>
    intro seen x
    by_cases hs : s ∈ seen
    · rw [firstUniquesAux, if_pos hs, ih]
      simp only [List.mem_cons]
      constructor
      · rintro ⟨h1, h2⟩; exact ⟨Or.inr h1, h2⟩
      · rintro ⟨h1 | h1, h2⟩
        · subst h1; exact absurd hs h2
        · exact ⟨h1, h2⟩
    · rw [firstUniquesAux, if_neg hs]
      simp only [List.mem_cons, ih]
      constructor
      · rintro (rfl | ⟨h1, h2⟩)
        · exact ⟨Or.inl rfl, hs⟩
        · exact ⟨Or.inr h1, fun hx => h2 (Or.inr hx)⟩
      · rintro ⟨rfl | h1, h2⟩
        · exact Or.inl rfl
        · by_cases hxs : x = s
          · exact Or.inl hxs
          · exact Or.inr ⟨h1, by simp [hxs, h2]⟩

theorem firstUniquesAux_nodup :
    ∀ l seen : List (List Char), (firstUniquesAux seen l).Nodup := by
  intro l
  induction l with
  | nil => intro seen; simp [firstUniquesAux]
  | cons s rest ih =>
    intro seen
    by_cases hs : s ∈ seen
    · rw [firstUniquesAux, if_pos hs]; exact ih seen
    · rw [firstUniquesAux, if_neg hs]
      refine List.nodup_cons.mpr ⟨?_, ih (s :: seen)⟩
      intro hmem
      exact ((firstUniquesAux_mem rest (s :: seen) s).mp hmem).2 (List.mem_cons_self s seen)

theorem sum_filter_split {M : Type} [AddCommMonoid M] (p : α → Bool) (f : α → M) :
    ∀ l : List α,
      ((l.filter p).map f).sum + ((l.filter (fun a => !p a)).map f).sum = (l.map f).sum := by
  intro l
  induction l with
  | nil => simp
  | cons a as ih =>
    by_cases hp : p a
    · simp only [List.filter_cons, hp, if_true, Bool.not_true, if_false, List.map_cons,
        List.sum_cons, Bool.false_eq_true]
      rw [add_assoc, ih]
    · simp only [List.filter_cons, hp, Bool.not_false, if_true, if_false, List.map_cons,
        List.sum_cons, Bool.false_eq_true]
      rw [← ih, add_left_comm]

theorem memKey_iff {K : Type} [DecidableEq K] (x : K) :
    ∀ ks : List K, memKey x ks = true ↔ x ∈ ks := by
  intro ks
  induction ks with
  | nil => simp [memKey]
  | cons k ks ih => simp [memKey, ih]

theorem sum_partition_keys {κ M : Type} [DecidableEq κ] [AddCommMonoid M]
    (key : α → κ) (f : α → M) :
    ∀ ks : List κ, ks.Nodup → ∀ l : List α,
      (ks.map (fun k => ((l.filter (fun a => key a = k)).map f).sum)).sum
        = ((l.filter (fun a => memKey (key a) ks)).map f).sum := by
  intro ks
  induction ks with
  | nil =>
    intro _ l
    simp [memKey]
  | cons k ks ih =>
    intro hnd l
    obtain ⟨hk, hnd2⟩ := List.nodup_cons.mp hnd
    simp only [List.map_cons, List.sum_cons]
    have hstep :
        (ks.map (fun k2 => ((l.filter (fun a => key a = k2)).map f).sum)).sum
          = (((l.filter (fun a => !(decide (key a = k)))).filter
              (fun a => memKey (key a) ks)).map f).sum := by
      rw [← ih hnd2 (l.filter (fun a => !(decide (key a = k))))]
      refine congrArg List.sum (List.map_congr_left ?_)
      intro k2 hk2
      have hne : k2 ≠ k := fun h => hk (h ▸ hk2)
      refine congrArg List.sum (congrArg (List.map f) ?_)
      rw [List.filter_filter]
      refine (List.filter_congr ?_).symm
      intro a _
      by_cases hak : key a = k
      · simp [hak, hne.symm]
      · simp [hak]
    rw [hstep]
    have hsplit := sum_filter_split (fun a => decide (key a = k)) f
      (l.filter (fun a => memKey (key a) (k :: ks)))
    have h1 : (l.filter (fun a => memKey (key a) (k :: ks))).filter
        (fun a => decide (key a = k)) = l.filter (fun a => key a = k) := by
      rw [List.filter_filter]
      refine List.filter_congr ?_
      intro a _
      by_cases hak : key a = k
      · simp [hak, memKey]
      · simp [hak]
    have h2 : (l.filter (fun a => memKey (key a) (k :: ks))).filter
        (fun a => !(decide (key a = k)))
          = (l.filter (fun a => !(decide (key a = k)))).filter
              (fun a => memKey (key a) ks) := by
      rw [List.filter_filter, List.filter_filter]
      refine List.filter_congr ?_
      intro a _
      by_cases hak : key a = k
      · simp [hak, memKey]
      · simp [hak, memKey]
    rw [h1, h2] at hsplit
    rw [← hsplit]

theorem length_eq_sum_ones (l : List α) : (l.map (fun _ => (1 : Nat))).sum = l.length := by
  induction l with
  | nil => rfl
  | cons a as ih => simp [ih, Nat.add_comm]

theorem length_partition_keys {κ : Type} [DecidableEq κ] (key : α → κ) :
    ∀ ks : List κ, ks.Nodup → ∀ l : List α,
      (ks.map (fun k => (l.filter (fun a => key a = k)).length)).sum
        = (l.filter (fun a => memKey (key a) ks)).length := by
  intro ks hnd l
  have h := sum_partition_keys key (fun _ => (1 : Nat)) ks hnd l
  rw [length_eq_sum_ones] at h
  rw [← h]
  refine congrArg List.sum (List.map_congr_left ?_)
  intro k _
  exact (length_eq_sum_ones _).symm

/-- C7: the claim asserts the Total row sums the message count over non-URL,
non-positive-call rows (true) and the call durations across all senders in
the table (false: the per-sender call sums are attached by index alignment,
so only senders that still have rows after the call-row exclusion
contribute; see the counterexample).  This theorem proves the message-count
part and the actual call-sum behaviour. -/
theorem C7_stat_total (t : CanonTable) (hcol : t.hasCallCol = true) :
    (message_stats t).totalMsgCount
      = (t.rows.filter (fun r => !durPos r.callDuration && !containsHttp r.message)).length ∧
    (message_stats t).totalCallSum
      = (((t.rows.filter (fun r => !containsHttp r.message)).filter
            (fun r => memKey r.sender (sendersAfterExclusion t))).map
          (fun r => r.callDuration.getD 0)).sum := by
  constructor
  · simp only [message_stats, hcol, if_true, List.map_map, Function.comp_def,
      sendersAfterExclusion, firstUniques]
    rw [length_partition_keys (fun r : CanonRow => r.sender) _ (firstUniquesAux_nodup _ _)]
    rw [← List.filter_filter]
    refine congrArg List.length (List.filter_eq_self.mpr ?_)
    intro r hr
    exact (memKey_iff _ _).mpr ((firstUniquesAux_mem _ _ _).mpr
      ⟨List.mem_map_of_mem _ hr, List.not_mem_nil _⟩)
  · simp only [message_stats, hcol, if_true, List.map_map, Function.comp_def,
      sendersAfterExclusion, firstUniques]
    rw [sum_partition_keys (fun r : CanonRow => r.sender)
      (fun r : CanonRow => r.callDuration.getD 0) _ (firstUniquesAux_nodup _ _)]

/-- C7 witness: the stat-total theorem applied to the concrete table with a
text sender and a call-only sender. -/
theorem C7_stat_total_witness :
    (message_stats tC7).totalMsgCount = 1 ∧ (message_stats tC7).totalCallSum = 0 := by
  have h := C7_stat_total tC7 rfl
  exact ⟨h.1.trans (by decide), h.2.trans (by decide)⟩

/-- C7 counterexample: in a table where Bob has only a positive-duration call
row, the Total row's call-duration sum is 0, not the sum of call durations
across all senders in the table (which is 7): Bob disappears from the
per-sender index before the call sums are attached. -/
theorem C7_counterexample :
    (message_stats tC7).totalCallSum ≠ (tC7.rows.map (fun r => r.callDuration.getD 0)).sum := by
  decide

/-- C10: a sender all of whose rows have positive call durations receives no
output row from `message_stats`: the call sums are computed before the
call-row exclusion but attached only to senders still present after it. -/
theorem C10_call_only_sender_dropped (t : CanonTable) (s : List Char)
    (hcol : t.hasCallCol = true)
    (hall : ∀ r ∈ t.rows, r.sender = s → durPos r.callDuration = true) :
    ∀ p ∈ (message_stats t).perSender, p.sender ≠ s := by
  intro p hp
  simp only [message_stats, hcol, if_true] at hp
  obtain ⟨k, hk, hpk⟩ := List.mem_map.mp hp
  subst hpk
  simp only
  intro hks
  subst hks
  obtain ⟨hmem, _⟩ := (firstUniquesAux_mem _ _ _).mp hk
  obtain ⟨r, hr, hrs⟩ := List.mem_map.mp hmem
  obtain ⟨hr1, hdur⟩ := List.mem_filter.mp hr
  have hr0 := (List.mem_filter.mp hr1).1
  rw [hall r hr0 hrs] at hdur
  simp at hdur

/-- C10 witness: in the Bob-only call table, Bob has no per-sender row. -/
theorem C10_call_only_sender_dropped_witness :
    ¬ (String.toList "Bob") ∈ (message_stats tC10).perSender.map (fun p => p.sender) := by
  intro hmem
  obtain ⟨p, hp, hps⟩ := List.mem_map.mp hmem
  exact C10_call_only_sender_dropped tC10 (String.toList "Bob") rfl (by decide) p hp hps

/-- C9: on a canonical table without the call-duration column, `top_words`
raises KeyError by indexing the column unconditionally, while
`message_stats` checks for the column first and computes the per-sender
statistics (its Total message count is the number of non-URL rows). -/
theorem C9_top_words_raises (t : CanonTable) (hcol : t.hasCallCol = false) :
    top_words t = .error ("KeyError: Call Duration (Sec)") ∧
    (message_stats t).hasCallCol = false ∧
    (message_stats t).totalMsgCount
      = (t.rows.filter (fun r => !containsHttp r.message)).length := by
  refine ⟨by simp [top_words, hcol], by simp [message_stats, hcol], ?_⟩
  simp only [message_stats, hcol, Bool.false_eq_true, if_false, List.map_map,
    Function.comp_def, firstUniques]
  rw [length_partition_keys (fun r : CanonRow => r.sender) _ (firstUniquesAux_nodup _ _)]
  refine congrArg List.length (List.filter_eq_self.mpr ?_)
  intro r hr
  exact (memKey_iff _ _).mpr ((firstUniquesAux_mem _ _ _).mpr
    ⟨List.mem_map_of_mem _ hr, List.not_mem_nil _⟩)

/-- C9 witness: the contrast applied to a concrete no-call-column table. -/
theorem C9_top_words_raises_witness :
    top_words tC9 = .error ("KeyError: Call Duration (Sec)") ∧
    (message_stats tC9).totalMsgCount = 1 := by
  have h := C9_top_words_raises tC9 rfl
  exact ⟨h.1, h.2.2.trans (by decide)⟩

theorem prefix_eq_of_length_eq {x y t : List Char} (hx : x <+: t) (hy : y <+: t)
    (h : x.length = y.length) : x = y := by
  obtain ⟨u, rfl⟩ := hx
  rw [List.prefix_iff_eq_take] at hy
  rw [hy, ← h, List.take_left]

theorem find_max_of_sorted {p : List Char → Bool} :
    ∀ {l : List (List Char)}, l.Pairwise lenGe → ∀ {x : List Char},
      l.find? p = some x →
      p x = true ∧ x ∈ l ∧ ∀ y ∈ l, p y = true → y.length ≤ x.length := by
  intro l
  induction l with
  | nil => intro _ x hx; simp [List.find?] at hx
  | cons a as ih =>
    intro hpw x hx
    obtain ⟨ha, htl⟩ := List.pairwise_cons.mp hpw
    by_cases pa : p a
    · have hxa : x = a := by simp [List.find?, pa] at hx; exact hx.symm
      subst hxa
      refine ⟨pa, List.mem_cons_self _ _, ?_⟩
      intro y hy _
      rcases List.mem_cons.mp hy with rfl | hy2
      · exact Nat.le_refl _
      · exact ha y hy2
    · have hx2 : as.find? p = some x := by
        simpa [List.find?, pa] using hx
      obtain ⟨hpx, hxm, hmax⟩ := ih htl hx2
      refine ⟨hpx, List.mem_cons.mpr (Or.inr hxm), ?_⟩
      intro y hy hpy
      rcases List.mem_cons.mp hy with rfl | hy2
      · exact absurd hpy pa
      · exact hmax y hy2 hpy

theorem longest_foldl_none (t : List Char) :
    ∀ (l : List (List Char)) (acc : Option (List Char)),
      l.foldl (fun acc c =>
        if !c.isEmpty && c.isPrefixOf t then
          match acc with
          | none => some c
          | some b => if b.length < c.length then some c else acc
        else acc) acc = none ↔
      (acc = none ∧ ∀ c ∈ l, (!c.isEmpty && c.isPrefixOf t) = false) := by
  intro l
  induction l with
  | nil => intro acc; simp
  | cons c cs ih =>
    intro acc
    rw [List.foldl_cons, ih]
    by_cases hp : (!c.isEmpty && c.isPrefixOf t) = true
    · simp only [hp, if_true]
      constructor
      · rintro ⟨hstep, _⟩
        exfalso
        cases acc with
        | none => simp at hstep
        | some b =>
          by_cases hlt : b.length < c.length
          · simp [hlt] at hstep
          · simp [hlt] at hstep
      · rintro ⟨_, hall⟩
        exact absurd hp (by simp [hall c (List.mem_cons_self c cs)])
    · have hpf : (!c.isEmpty && c.isPrefixOf t) = false := by
        cases hcond : (!c.isEmpty && c.isPrefixOf t) with
        | false => rfl
        | true => exact absurd hcond hp
      simp only [hpf, Bool.false_eq_true, if_false]
      constructor
      · rintro ⟨h1, h2⟩
        refine ⟨h1, ?_⟩
        intro d hd
        rcases List.mem_cons.mp hd with rfl | hd2
        · exact hpf
        · exact h2 d hd2
      · rintro ⟨h1, h2⟩
        exact ⟨h1, fun d hd => h2 d (List.mem_cons.mpr (Or.inr hd))⟩

theorem longest_foldl_some (t : List Char) :
    ∀ (l : List (List Char)) (acc : Option (List Char)) (e : List Char),
      l.foldl (fun acc c =>
        if !c.isEmpty && c.isPrefixOf t then
          match acc with
          | none => some c
          | some b => if b.length < c.length then some c else acc
        else acc) acc = some e →
      ((acc = some e ∨ (e ∈ l ∧ (!e.isEmpty && e.isPrefixOf t) = true)) ∧
       (∀ c ∈ l, (!c.isEmpty && c.isPrefixOf t) = true → c.length ≤ e.length) ∧
       (∀ b, acc = some b → b.length ≤ e.length)) := by
  intro l
  induction l with
  | nil =>
    intro acc e h
    simp only [List.foldl_nil] at h
    refine ⟨Or.inl h, ?_, ?_⟩
    · intro c hc; simp at hc
    · intro b hb
      rw [h] at hb
      cases hb
      exact Nat.le_refl _
  | cons c cs ih =>
    intro acc e h
    rw [List.foldl_cons] at h
    obtain ⟨hA, hB, hC⟩ := ih _ e h
    refine ⟨?_, ?_, ?_⟩
    · rcases hA with hA1 | ⟨hA2, hA3⟩
      · by_cases hp : (!c.isEmpty && c.isPrefixOf t) = true
        · cases acc with
          | none =>
            simp only [hp, if_true] at hA1
            cases hA1
            exact Or.inr ⟨List.mem_cons_self _ _, hp⟩
          | some b =>
            by_cases hlt : b.length < c.length
            · simp only [hp, if_true, hlt] at hA1
              cases hA1
              exact Or.inr ⟨List.mem_cons_self _ _, hp⟩
            · simp only [hp, if_true, hlt, if_false] at hA1
              exact Or.inl hA1
        · simp only [hp, if_false] at hA1
          exact Or.inl hA1
      · exact Or.inr ⟨List.mem_cons.mpr (Or.inr hA2), hA3⟩
    · intro d hd hpd
      rcases List.mem_cons.mp hd with rfl | hd2
      · cases acc with
        | none => exact hC d (by simp [hpd, if_true])
        | some b =>
          by_cases hlt : b.length < d.length
          · exact hC d (by simp [hpd, if_true, hlt])
          · exact Nat.le_trans (Nat.le_of_not_lt hlt)
              (hC b (by simp [hpd, if_true, hlt, if_false]))
      · exact hB d hd2 hpd
    · intro b hb
      subst hb
      by_cases hp : (!c.isEmpty && c.isPrefixOf t) = true
      · by_cases hlt : b.length < c.length
        · exact Nat.le_trans (Nat.le_of_lt hlt)
            (hC c (by simp [hp, if_true, hlt]))
        · exact hC b (by simp [hp, if_true, hlt, if_false])
      · exact hC b (by simp [hp, if_false])

theorem matchAt_eq (cands : List (List Char)) (t : List Char) :
    regexpMatchAt cands t = longestMatchAt cands t := by
  have hperm := List.perm_insertionSort lenGe cands
  have hsorted : (get_emoji_regexp cands).Pairwise lenGe :=
    List.sorted_insertionSort lenGe cands
  cases hf : (get_emoji_regexp cands).find? (fun c => !c.isEmpty && c.isPrefixOf t) with
  | none =>
    have hnone : ∀ c ∈ cands, (!c.isEmpty && c.isPrefixOf t) = false := by
      intro c hc
      have hcs : c ∈ get_emoji_regexp cands := hperm.mem_iff.mpr hc
      have hnc := List.find?_eq_none.mp hf c hcs
      cases hcond : (!c.isEmpty && c.isPrefixOf t) with
      | false => rfl
      | true => exact absurd hcond hnc
    have h2 : longestMatchAt cands t = none :=
      (longest_foldl_none t cands none).mpr ⟨rfl, hnone⟩
    unfold regexpMatchAt
    rw [hf, h2]
  | some x =>
    obtain ⟨hpx, hxmem, hxmax⟩ := find_max_of_sorted hsorted hf
    have hxc : x ∈ cands := hperm.mem_iff.mp hxmem
    cases hl : longestMatchAt cands t with
    | none =>
      exfalso
      have hall := ((longest_foldl_none t cands none).mp hl).2 x hxc
      rw [hpx] at hall
      simp at hall
    | some e =>
      obtain ⟨hA, hB, _⟩ := longest_foldl_some t cands none e hl
      rcases hA with hA1 | ⟨hec, hpe⟩
      · simp at hA1
      · have h1 : e.length ≤ x.length := hxmax e (hperm.mem_iff.mpr hec) hpe
        have h2 : x.length ≤ e.length := hB x hxc hpx
        have hxpre : x <+: t :=
          List.isPrefixOf_iff_prefix.mp (Bool.and_eq_true_iff.mp hpx).2
        have hepre : e <+: t :=
          List.isPrefixOf_iff_prefix.mp (Bool.and_eq_true_iff.mp hpe).2
        have hxe : x = e := prefix_eq_of_length_eq hxpre hepre (Nat.le_antisymm h2 h1)
        unfold regexpMatchAt
        rw [hf, hxe]

theorem scanFuel_congr {m1 m2 : List Char → Option (List Char)}
    (h : ∀ u, m1 u = m2 u) :
    ∀ (fuel : Nat) (t : List Char), scanFuel m1 fuel t = scanFuel m2 fuel t := by
  intro fuel
  induction fuel with
  | zero => intro t; rfl
  | succ n ih =>
    intro t
    cases t with
    | nil => rfl
    | cons c rest =>
      simp only [scanFuel, h]
      cases m2 (c :: rest) with
      | none => exact ih rest
      | some e =>
        by_cases hz : e.length = 0
        · simp only [hz, if_true]
          exact ih rest
        · simp only [hz, if_false]
          rw [ih]

theorem scanFuel_mem {m : List Char → Option (List Char)} :
    ∀ (fuel : Nat) (t : List Char) (e : List Char),
      e ∈ scanFuel m fuel t → ∃ u, m u = some e := by
  intro fuel
  induction fuel with
  | zero => intro t e he; simp [scanFuel] at he
  | succ n ih =>
    intro t e he
    cases t with
    | nil => simp [scanFuel] at he
    | cons c rest =>
      simp only [scanFuel] at he
      cases hm : m (c :: rest) with
      | none =>
        simp only [hm] at he
        exact ih rest e he
      | some d =>
        simp only [hm] at he
        by_cases hz : d.length = 0
        · rw [if_pos hz] at he
          exact ih rest e he
        · rw [if_neg hz] at he
          rcases List.mem_cons.mp he with rfl | he2
          · exact ⟨c :: rest, hm⟩
          · exact ih _ e he2

/-- C6: emoji extraction is maximal munch.  The regex scan of
`keep_only_emojis` (candidates tried in the length-descending order built by
`get_emoji_regexp`, first match wins, non-matching characters skipped)
coincides with the spec's `extractEmojis`, which at each position keeps a
longest matching candidate; and every emitted token is one of the known
candidates, so a known multi-codepoint emoji is never split. -/
theorem C6_maximal_munch :
    ∀ (cands : List (List Char)) (text : List Char),
      keep_only_emojis cands text = extractEmojis cands text ∧
      ∀ e ∈ keep_only_emojis cands text, e ∈ cands := by
  intro cands text
  constructor
  · unfold keep_only_emojis extractEmojis scanWith
    exact scanFuel_congr (matchAt_eq cands) text.length text
  · intro e he
    unfold keep_only_emojis scanWith at he
    obtain ⟨u, hu⟩ := scanFuel_mem text.length text e he
    unfold regexpMatchAt at hu
    exact (List.perm_insertionSort lenGe cands).mem_iff.mp (List.mem_of_find?_eq_some hu)

/-- C6 witness: the maximal-munch theorem applied to a concrete candidate set
and text; the heart-plus-variation-selector sequence is matched as one known
token, not split into the bare heart. -/
theorem C6_maximal_munch_witness :
    keep_only_emojis EMOJI_DATA tHeart = extractEmojis EMOJI_DATA tHeart ∧
    [Char.ofNat 0x2764, Char.ofNat 0xFE0F] ∈ EMOJI_DATA :=
  ⟨(C6_maximal_munch EMOJI_DATA tHeart).1,
   (C6_maximal_munch EMOJI_DATA tHeart).2
     [Char.ofNat 0x2764, Char.ofNat 0xFE0F] (by decide)⟩
